import Mathlib

/-!
Shallow embedding of `src/lib/local-cache.ts` (the `LocalCache` class) and
verification of the specification's claims about it.

Modelling conventions:
* JavaScript values stored in the cache are modelled by `JSValue`, with the
  JavaScript truthiness predicate `JSValue.truthy` (NaN is not modelled;
  numbers are `Int`).
* `Date.now()` is passed explicitly as a `now : Int` argument to every
  method that reads the clock.
* The JS `Map` field `cache` and the plain-object field `lockCallbacks` are
  modelled as association lists in insertion order (`mapGet`/`mapSet`/
  `mapDelete` mirror `Map.get`/`Map.set`/`delete`); `Map.forEach` with
  deletion of the visited key is modelled by `List.filter`.
* Waiter callbacks (`resolve` continuations) are modelled by numeric waiter
  identifiers; invoking a callback with a value is recorded as a pair
  `(waiterId, value)` in the `woken` output list, in invocation order.
* A thrown `Error` is modelled by `thrown : Option String` in the result of
  `set`; `thrown = none` means the call returned normally.
-/

/-- A JavaScript value, as far as the cache can observe it. -/
inductive JSValue where
  | vUndefined : JSValue
  | vNull : JSValue
  | vBool : Bool → JSValue
  | vNum : Int → JSValue
  | vStr : String → JSValue
  | vObj : Nat → JSValue
deriving DecidableEq, Repr

/-- JavaScript truthiness of a value (`if (x)`); NaN is not modelled. -/
def JSValue.truthy : JSValue → Bool
  | .vUndefined => false
  | .vNull => false
  | .vBool b => b
  | .vNum n => n != 0
  | .vStr s => s != ""
  | .vObj _ => true

/-- Truthiness of a possibly-absent boolean option (`options?.disabled`). -/
def optTruthy : Option Bool → Bool
  | some b => b
  | none => false

/-- Truthiness of a possibly-absent number (`!maxNumberOfCachedKeys`). -/
def numTruthy : Option Int → Bool
  | some n => n != 0
  | none => false

/-- JS `x || d` for a possibly-absent number `x`: `d` when `x` is
`undefined` or `0`, otherwise the number itself. -/
def jsOr (x : Option Int) (d : Int) : Int :=
  match x with
  | some n => if n = 0 then d else n
  | none => d

/-- `Map.get` / property read on an insertion-ordered association list. -/
def mapGet {α : Type} (m : List (String × α)) (k : String) : Option α :=
  match m with
  | [] => none
  | (k', v) :: rest => if k' = k then some v else mapGet rest k

/-- `Map.set` / property write: replace in place if the key is present,
otherwise append (JS `Map` keeps insertion order). -/
def mapSet {α : Type} (m : List (String × α)) (k : String) (v : α) :
    List (String × α) :=
  match m with
  | [] => [(k, v)]
  | (k', v') :: rest =>
    if k' = k then (k, v) :: rest else (k', v') :: mapSet rest k v

/-- `Map.delete` / `delete obj[k]`: remove the binding for `k`. -/
def mapDelete {α : Type} (m : List (String × α)) (k : String) :
    List (String × α) :=
  match m with
  | [] => []
  | (k', v') :: rest => if k' = k then rest else (k', v') :: mapDelete rest k

/-- `LocalCacheOptions` from the source; every field optional. -/
structure LocalCacheOptions where
  disabled : Option Bool := none
  defaultTTLMs : Option Int := none
  cleanCacheIntervalMs : Option Int := none
  maxNumberOfCachedKeys : Option Int := none
deriving DecidableEq, Repr

/-- `LocalCacheItem` from the source. -/
structure LocalCacheItem where
  value : JSValue
  expiredOn : Int
deriving DecidableEq, Repr

/-- `DEFAULT_TTL_MS` from the source. -/
def DEFAULT_TTL_MS : Int := 5000

/-- `DEFAULT_CLEAN_CACHE_INTERVAL_MS` from the source. -/
def DEFAULT_CLEAN_CACHE_INTERVAL_MS : Int := 30000

/-- The mutable state of one `LocalCache` instance: the stored options, the
`ttl` attribute fixed by the constructor, the entry store `cache`, and the
wait registry `lockCallbacks` (waiters as numeric identifiers). -/
structure LocalCache where
  options : LocalCacheOptions
  ttl : Int
  cache : List (String × LocalCacheItem)
  lockCallbacks : List (String × List Nat)
deriving DecidableEq, Repr

/-- The constructor: `ttl = options?.defaultTTLMs || DEFAULT_TTL_MS`, empty
entry store and wait registry. (`setInterval(this.clear, ...)` is modelled
by letting `clear` be invoked explicitly at arbitrary times.) -/
def mkLocalCache (options : LocalCacheOptions) : LocalCache :=
  { options := options
    ttl := jsOr options.defaultTTLMs DEFAULT_TTL_MS
    cache := []
    lockCallbacks := [] }

/-- The sweep period chosen by the constructor:
`options?.cleanCacheIntervalMs || DEFAULT_CLEAN_CACHE_INTERVAL_MS`. -/
def cleanInterval (options : LocalCacheOptions) : Int :=
  jsOr options.cleanCacheIntervalMs DEFAULT_CLEAN_CACHE_INTERVAL_MS

/-- `private size = () => this.cache.size`. -/
def LocalCache.size (c : LocalCache) : Nat := c.cache.length

/-- `private clear`: one Evictor sweep at time `now`. For each entry, if
`!this.lockCallbacks[key]` (no wait registration — an empty array is
truthy in JS, so an empty registration also protects the key) and
`entry?.expiredOn <= now`, the entry is deleted. -/
def LocalCache.clear (c : LocalCache) (now : Int) : LocalCache :=
  { c with
    cache := c.cache.filter (fun kv =>
      !(mapGet c.lockCallbacks kv.1 = none && kv.2.expiredOn ≤ now)) }

/-- `private unlockKey(key, value)`: if a registration exists for `key`,
invoke every callback in order with `value` and delete the registration.
Returns the new state and the list of invocations. -/
def LocalCache.unlockKey (c : LocalCache) (key : String) (value : JSValue) :
    LocalCache × List (Nat × JSValue) :=
  match mapGet c.lockCallbacks key with
  | some callbacks =>
    ({ c with lockCallbacks := mapDelete c.lockCallbacks key },
      callbacks.map (fun i => (i, value)))
  | none => (c, [])

/-- `private getSync<T>(key)`: on an enabled cache, return the stored value
when `cacheItem?.value` is truthy and `cacheItem.expiredOn > Date.now()`;
otherwise `null` (modelled as `none`). -/
def LocalCache.getSync (c : LocalCache) (key : String) (now : Int) : Option JSValue :=
  if !optTruthy c.options.disabled then
    match mapGet c.cache key with
    | some cacheItem =>
      if cacheItem.value.truthy && now < cacheItem.expiredOn then
        some cacheItem.value
      else none
    | none => none
  else none

/-- The admission condition of `set`:
`!maxNumberOfCachedKeys || this.size() < maxNumberOfCachedKeys`. -/
def LocalCache.admission (c : LocalCache) : Bool :=
  !numTruthy c.options.maxNumberOfCachedKeys
    || decide ((c.size : Int) < c.options.maxNumberOfCachedKeys.getD 0)

/-- Result of a call to `set`: the post-state, the waiter invocations it
performed (via `unlockKey`), and the thrown error message if any. -/
structure SetOutcome where
  state : LocalCache
  woken : List (Nat × JSValue)
  thrown : Option String
deriving DecidableEq, Repr

/-- `public set(key, value, ttl?)` at time `now`. Disabled: no-op. Enabled:
if the admission check passes, store `{value, expiredOn: now + (ttl ||
this.ttl)}` and drain the wait registration for `key`; otherwise throw. -/
def LocalCache.set (c : LocalCache) (key : String) (value : JSValue)
    (ttl : Option Int) (now : Int) : SetOutcome :=
  let maxNumberOfCachedKeys := c.options.maxNumberOfCachedKeys
  if !optTruthy c.options.disabled then
    if c.admission then
      let effectiveTtl := jsOr ttl c.ttl
      let expiredOn := now + effectiveTtl
      let c1 := { c with
        cache := mapSet c.cache key ⟨value, expiredOn⟩ }
      let r := c1.unlockKey key value
      ⟨r.1, r.2, none⟩
    else
      ⟨c, [], some s!"local-cache max limit reach ({maxNumberOfCachedKeys.getD 0})"⟩
  else ⟨c, [], none⟩

/-- How a call to `get` concluded from the caller's perspective:
`resolved v` — the promise resolved at once (`none` models `null`);
`suspended id` — the caller was appended to the wait registration as
waiter `id` and its promise is still pending. -/
inductive GetOutcome where
  | resolved : Option JSValue → GetOutcome
  | suspended : Nat → GetOutcome
deriving DecidableEq, Repr

/-- `public async get<T>(key, waitIfSetInProcess?)` at time `now`; `newId`
is the identifier this call would use if it registers as a waiter. Mirrors
the promise executor: synchronous hit resolves the value; on a miss with a
truthy wait argument, the first caller creates an empty registration and
resolves `null`, later callers are appended and suspend; otherwise resolve
`null`. -/
def LocalCache.get (c : LocalCache) (key : String)
    (waitIfSetInProcess : JSValue) (now : Int) (newId : Nat) :
    LocalCache × GetOutcome :=
  if optTruthy c.options.disabled then
    (c, .resolved none)
  else
    match c.getSync key now with
    | some result => (c, .resolved (some result))
    | none =>
      if waitIfSetInProcess.truthy then
        match mapGet c.lockCallbacks key with
        | none =>
          ({ c with lockCallbacks := mapSet c.lockCallbacks key [] },
            .resolved none)
        | some callbacks =>
          ({ c with
              lockCallbacks :=
                mapSet c.lockCallbacks key (callbacks ++ [newId]) },
            .suspended newId)
      else (c, .resolved none)

/-- The waiters currently registered for `key` (empty when no registration
exists). -/
def waitersOf (c : LocalCache) (key : String) : List Nat :=
  (mapGet c.lockCallbacks key).getD []

/-! ### Association-list lemmas -/

theorem mapGet_eq_none_of_not_mem {α : Type} (m : List (String × α))
    (k : String) (h : k ∉ m.map Prod.fst) : mapGet m k = none := by
  induction m with
  | nil => simp [mapGet]
  | cons hd tl ih =>
    obtain ⟨k', v'⟩ := hd
    simp only [List.map_cons, List.mem_cons] at h
    push_neg at h
    simp only [mapGet, if_neg (fun hc : k' = k => h.1 hc.symm)]
    exact ih h.2

theorem mapGet_mapSet_self {α : Type} (m : List (String × α)) (k : String)
    (v : α) : mapGet (mapSet m k v) k = some v := by
  induction m with
  | nil => simp [mapSet, mapGet]
  | cons hd tl ih =>
    obtain ⟨k', v'⟩ := hd
    by_cases h : k' = k
    · simp [mapSet, h, mapGet]
    · simp [mapSet, h, mapGet, ih]

theorem mapGet_mapSet_ne {α : Type} (m : List (String × α)) (k k' : String)
    (v : α) (h : k ≠ k') : mapGet (mapSet m k v) k' = mapGet m k' := by
  induction m with
  | nil => simp [mapSet, mapGet, h]
  | cons hd tl ih =>
    obtain ⟨k'', v''⟩ := hd
    by_cases h' : k'' = k
    · subst h'
      simp [mapSet, mapGet, h]
    · simp [mapSet, h', mapGet, ih]

theorem mapGet_mapDelete_self {α : Type} (m : List (String × α)) (k : String)
    (hnd : (m.map Prod.fst).Nodup) : mapGet (mapDelete m k) k = none := by
  induction m with
  | nil => simp [mapDelete, mapGet]
  | cons hd tl ih =>
    obtain ⟨k', v'⟩ := hd
    simp only [List.map_cons, List.nodup_cons] at hnd
    by_cases h : k' = k
    · subst h
      simp only [mapDelete, if_pos rfl]
      exact mapGet_eq_none_of_not_mem tl k' hnd.1
    · simp only [mapDelete, if_neg h, mapGet, if_neg h]
      exact ih hnd.2

theorem mapGet_mapDelete_ne {α : Type} (m : List (String × α)) (k k' : String)
    (h : k ≠ k') : mapGet (mapDelete m k) k' = mapGet m k' := by
  induction m with
  | nil => simp [mapDelete]
  | cons hd tl ih =>
    obtain ⟨k'', v''⟩ := hd
    by_cases h' : k'' = k
    · subst h'
      simp [mapDelete, mapGet, if_neg h]
    · simp only [mapDelete, if_neg h', mapGet]
      by_cases h2 : k'' = k'
      · simp [h2]
      · simp [h2, ih]

theorem mapGet_filter_of_none {α : Type} (m : List (String × α))
    (p : String × α → Bool) (k : String) (h : mapGet m k = none) :
    mapGet (m.filter p) k = none := by
  induction m with
  | nil => simp [mapGet]
  | cons hd tl ih =>
    obtain ⟨k', v'⟩ := hd
    simp only [mapGet] at h
    by_cases hk : k' = k
    · simp [hk] at h
    · simp only [if_neg hk] at h
      by_cases hp : p (k', v')
      · simp [List.filter_cons, hp, mapGet, hk, ih h]
      · simp [List.filter_cons, hp, ih h]

theorem mapGet_filter {α : Type} (m : List (String × α))
    (p : String × α → Bool) (k : String) (hnd : (m.map Prod.fst).Nodup) :
    mapGet (m.filter p) k =
      (mapGet m k).bind (fun v => if p (k, v) then some v else none) := by
  induction m with
  | nil => simp [mapGet]
  | cons hd tl ih =>
    obtain ⟨k', v'⟩ := hd
    simp only [List.map_cons, List.nodup_cons] at hnd
    by_cases hk : k' = k
    · subst hk
      have htl : mapGet tl k' = none := mapGet_eq_none_of_not_mem tl k' hnd.1
      by_cases hp : p (k', v')
      · simp [List.filter_cons, hp, mapGet]
      · simp only [List.filter_cons, hp, Bool.false_eq_true, if_false]
        rw [mapGet_filter_of_none tl p k' htl]
        simp [mapGet, hp]
    · by_cases hp : p (k', v')
      · simp [List.filter_cons, hp, mapGet, hk, ih hnd.2]
      · simp [List.filter_cons, hp, mapGet, hk, ih hnd.2]

/-! ### Characterisation of the operations -/

theorem set_disabled_eq (c : LocalCache) (k : String) (v : JSValue)
    (ttl : Option Int) (now : Int)
    (hdis : optTruthy c.options.disabled = true) :
    c.set k v ttl now = ⟨c, [], none⟩ := by
  simp [LocalCache.set, hdis]

theorem set_err_eq (c : LocalCache) (k : String) (v : JSValue)
    (ttl : Option Int) (now : Int)
    (hdis : optTruthy c.options.disabled = false)
    (hadm : c.admission = false) :
    c.set k v ttl now =
      ⟨c, [],
        some s!"local-cache max limit reach ({c.options.maxNumberOfCachedKeys.getD 0})"⟩ := by
  simp [LocalCache.set, hdis, hadm]

theorem set_ok_eq (c : LocalCache) (k : String) (v : JSValue)
    (ttl : Option Int) (now : Int)
    (hdis : optTruthy c.options.disabled = false)
    (hadm : c.admission = true) :
    c.set k v ttl now =
      ⟨{ c with
          cache := mapSet c.cache k ⟨v, now + jsOr ttl c.ttl⟩,
          lockCallbacks :=
            match mapGet c.lockCallbacks k with
            | some _ => mapDelete c.lockCallbacks k
            | none => c.lockCallbacks },
        (waitersOf c k).map (fun i => (i, v)), none⟩ := by
  unfold LocalCache.set LocalCache.unlockKey
  rw [hdis, hadm]
  cases h : mapGet c.lockCallbacks k <;> simp [waitersOf, h]

theorem get_disabled_eq (c : LocalCache) (k : String) (w : JSValue)
    (now : Int) (id : Nat)
    (hdis : optTruthy c.options.disabled = true) :
    c.get k w now id = (c, .resolved none) := by
  simp [LocalCache.get, hdis]

theorem get_hit_eq (c : LocalCache) (k : String) (w : JSValue) (now : Int)
    (id : Nat) (r : JSValue) (hr : c.getSync k now = some r) :
    c.get k w now id = (c, .resolved (some r)) := by
  have hdis : optTruthy c.options.disabled = false := by
    cases h : optTruthy c.options.disabled
    · rfl
    · simp [LocalCache.getSync, h] at hr
  simp [LocalCache.get, hdis, hr]

theorem get_miss_nowait_eq (c : LocalCache) (k : String) (w : JSValue)
    (now : Int) (id : Nat) (hmiss : c.getSync k now = none)
    (hw : w.truthy = false) :
    c.get k w now id = (c, .resolved none) := by
  cases hdis : optTruthy c.options.disabled <;>
    simp [LocalCache.get, hdis, hmiss, hw]

theorem get_first_waiter_eq (c : LocalCache) (k : String) (w : JSValue)
    (now : Int) (id : Nat)
    (hdis : optTruthy c.options.disabled = false)
    (hmiss : c.getSync k now = none) (hw : w.truthy = true)
    (hreg : mapGet c.lockCallbacks k = none) :
    c.get k w now id =
      ({ c with lockCallbacks := mapSet c.lockCallbacks k [] },
        .resolved none) := by
  simp [LocalCache.get, hdis, hmiss, hw, hreg]

theorem get_append_waiter_eq (c : LocalCache) (k : String) (w : JSValue)
    (now : Int) (id : Nat) (cbs : List Nat)
    (hdis : optTruthy c.options.disabled = false)
    (hmiss : c.getSync k now = none) (hw : w.truthy = true)
    (hreg : mapGet c.lockCallbacks k = some cbs) :
    c.get k w now id =
      ({ c with lockCallbacks := mapSet c.lockCallbacks k (cbs ++ [id]) },
        .suspended id) := by
  simp [LocalCache.get, hdis, hmiss, hw, hreg]

/-! ### Claims -/

/-- C1 (amended): on an enabled cache whose admission check passes, for
every key `k` and every **truthy** value `v`, `set(k, v)` followed by a
`get(k)` before the entry's TTL elapses yields `v`: the synchronous lookup
returns the freshly stored value. As literally stated — for *every* value —
the claim fails, because `getSync` requires `cacheItem?.value` to be
truthy. -/
theorem set_get_roundtrip (c : LocalCache) (k : String) (v : JSValue)
    (ttl : Option Int) (w : JSValue) (now now2 : Int) (id : Nat)
    (hdis : optTruthy c.options.disabled = false)
    (hadm : c.admission = true)
    (hv : v.truthy = true)
    (hfresh : now2 < now + jsOr ttl c.ttl) :
    (c.set k v ttl now).thrown = none ∧
    ((c.set k v ttl now).state.get k w now2 id).2
      = .resolved (some v) := by
  have hok := set_ok_eq c k v ttl now hdis hadm
  refine ⟨by rw [hok], ?_⟩
  rw [hok]
  have hsync :
      ({ c with
          cache := mapSet c.cache k ⟨v, now + jsOr ttl c.ttl⟩,
          lockCallbacks :=
            match mapGet c.lockCallbacks k with
            | some _ => mapDelete c.lockCallbacks k
            | none => c.lockCallbacks } : LocalCache).getSync k now2
        = some v := by
    simp [LocalCache.getSync, hdis, mapGet_mapSet_self, hv, hfresh]
  rw [get_hit_eq _ _ w now2 id v hsync]

/-- C1 witness: concrete round trip of the truthy value `"v"`. -/
theorem set_get_roundtrip_witness :
    optTruthy (mkLocalCache {}).options.disabled = false ∧
    (mkLocalCache {}).admission = true ∧
    (JSValue.vStr "v").truthy = true ∧
    (5 : Int) < 0 + jsOr none (mkLocalCache {}).ttl ∧
    ((mkLocalCache {}).set "k" (JSValue.vStr "v") none 0).thrown = none ∧
    (((mkLocalCache {}).set "k" (JSValue.vStr "v") none 0).state.get "k"
        JSValue.vUndefined 5 0).2 = .resolved (some (JSValue.vStr "v")) :=
  ⟨by decide, by decide, by decide, by decide,
    (set_get_roundtrip (mkLocalCache {}) "k" (JSValue.vStr "v") none
      JSValue.vUndefined 0 5 0 (by decide) (by decide) (by decide)
      (by decide)).1,
    (set_get_roundtrip (mkLocalCache {}) "k" (JSValue.vStr "v") none
      JSValue.vUndefined 0 5 0 (by decide) (by decide) (by decide)
      (by decide)).2⟩

/-- C1 counterexample: on a fresh enabled cache, `set("k", false)` succeeds
and leaves an unexpired entry, yet an immediate `get("k")` yields "no
value" rather than the stored value `false`, because the stored value is
falsy. -/
theorem roundtrip_fails_for_falsy_value :
    optTruthy (mkLocalCache {}).options.disabled = false ∧
    ((mkLocalCache {}).set "k" (JSValue.vBool false) none 0).thrown = none ∧
    mapGet ((mkLocalCache {}).set "k" (JSValue.vBool false) none
        0).state.cache "k" = some ⟨JSValue.vBool false, 5000⟩ ∧
    (0 : Int) < 5000 ∧
    (((mkLocalCache {}).set "k" (JSValue.vBool false) none 0).state.get "k"
        JSValue.vUndefined 0 0).2 = .resolved none ∧
    GetOutcome.resolved none
      ≠ GetOutcome.resolved (some (JSValue.vBool false)) := by
  decide

/-- C2: on an enabled cache, a waiting `get(k)` that misses when no
registration exists creates an empty registration and resolves at once
with "no value"; a waiting miss while a registration exists is appended as
a waiter and suspends; a `set(k, v)` wakes exactly the registered waiters,
each once, in registration (FIFO) order, with `v`, and deletes the
registration; and a `set` of a different key wakes only that key's own
waiters and leaves `k`'s registration untouched. -/
theorem wait_protocol_fifo (c : LocalCache) (k k2 : String) (v w : JSValue)
    (ttl : Option Int) (now : Int) (id : Nat) (cbs : List Nat)
    (hdis : optTruthy c.options.disabled = false)
    (hw : w.truthy = true)
    (hmiss : c.getSync k now = none)
    (hnd : (c.lockCallbacks.map Prod.fst).Nodup) :
    (mapGet c.lockCallbacks k = none →
      c.get k w now id =
        ({ c with lockCallbacks := mapSet c.lockCallbacks k [] },
          .resolved none)) ∧
    (mapGet c.lockCallbacks k = some cbs →
      c.get k w now id =
        ({ c with lockCallbacks := mapSet c.lockCallbacks k (cbs ++ [id]) },
          .suspended id)) ∧
    (c.admission = true →
      (c.set k v ttl now).woken = (waitersOf c k).map (fun i => (i, v)) ∧
      mapGet (c.set k v ttl now).state.lockCallbacks k = none) ∧
    (c.admission = true → k2 ≠ k →
      (c.set k2 v ttl now).woken = (waitersOf c k2).map (fun i => (i, v)) ∧
      mapGet (c.set k2 v ttl now).state.lockCallbacks k
        = mapGet c.lockCallbacks k) := by
  refine ⟨fun hreg => get_first_waiter_eq c k w now id hdis hmiss hw hreg,
    fun hreg => get_append_waiter_eq c k w now id cbs hdis hmiss hw hreg,
    fun hadm => ?_, fun hadm hne => ?_⟩
  · rw [set_ok_eq c k v ttl now hdis hadm]
    refine ⟨rfl, ?_⟩
    cases hreg : mapGet c.lockCallbacks k with
    | none => simp [hreg]
    | some cbs2 => simp [hreg, mapGet_mapDelete_self _ _ hnd]
  · rw [set_ok_eq c k2 v ttl now hdis hadm]
    refine ⟨rfl, ?_⟩
    cases hreg : mapGet c.lockCallbacks k2 with
    | none => simp [hreg]
    | some cbs2 => simp [hreg, mapGet_mapDelete_ne _ _ _ hne]

/-- C2 witness: with waiter `3` registered for `"k"`, a further waiting
`get` suspends as waiter `7`, and a `set("k", "x")` wakes exactly waiter
`3` with `"x"` and removes the registration. -/
theorem wait_protocol_fifo_witness :
    (({ mkLocalCache {} with lockCallbacks := [("k", [3])] }
        : LocalCache).get "k" (JSValue.vNum 2000) 0 7
      = (({ mkLocalCache {} with lockCallbacks := [("k", [3, 7])] }
          : LocalCache), GetOutcome.suspended 7)) ∧
    (({ mkLocalCache {} with lockCallbacks := [("k", [3])] }
        : LocalCache).set "k" (JSValue.vStr "x") none 0).woken
      = [(3, JSValue.vStr "x")] ∧
    mapGet (({ mkLocalCache {} with lockCallbacks := [("k", [3])] }
        : LocalCache).set "k" (JSValue.vStr "x") none
        0).state.lockCallbacks "k" = none := by
  have h := wait_protocol_fifo
    { mkLocalCache {} with lockCallbacks := [("k", [3])] }
    "k" "j" (JSValue.vStr "x") (JSValue.vNum 2000) none 0 7 [3]
    (by decide) (by decide) (by decide) (by decide)
  refine ⟨?_, ?_, (h.2.2.1 (by decide)).2⟩
  · have h2 := h.2.1 (by decide)
    simpa [mapSet] using h2
  · have h3 := (h.2.2.1 (by decide)).1
    simpa [waitersOf, mapGet] using h3

theorem admission_eq_false_iff (c : LocalCache) :
    c.admission = false ↔
      (numTruthy c.options.maxNumberOfCachedKeys = true ∧
        c.options.maxNumberOfCachedKeys.getD 0 ≤ (c.size : Int)) := by
  unfold LocalCache.admission
  cases h : numTruthy c.options.maxNumberOfCachedKeys <;>
    simp [h, Int.not_lt]

/-- C3: on an enabled cache, `set(k, v)` throws the capacity error exactly
when `maxNumberOfCachedKeys` is a nonzero number and the current total
entry count is at or above it — the criterion never looks at `k`, so an
overwrite of an existing key at capacity is rejected too; with the option
absent or zero `set` never throws. -/
theorem set_capacity_error_iff (c : LocalCache) (k : String) (v : JSValue)
    (ttl : Option Int) (now : Int)
    (hdis : optTruthy c.options.disabled = false) :
    (c.set k v ttl now).thrown ≠ none ↔
      (numTruthy c.options.maxNumberOfCachedKeys = true ∧
        c.options.maxNumberOfCachedKeys.getD 0 ≤ (c.size : Int)) := by
  rw [← admission_eq_false_iff]
  cases hadm : c.admission with
  | true => rw [set_ok_eq c k v ttl now hdis hadm]; simp
  | false => rw [set_err_eq c k v ttl now hdis hadm]; simp

/-- C3 witness: a cache capped at one key and already holding `"k"`
rejects even an overwrite of `"k"`. -/
theorem set_capacity_error_iff_witness :
    optTruthy ({ mkLocalCache { maxNumberOfCachedKeys := some 1 } with
        cache := [("k", ⟨JSValue.vStr "old", 9⟩)] }
        : LocalCache).options.disabled = false ∧
    ((({ mkLocalCache { maxNumberOfCachedKeys := some 1 } with
        cache := [("k", ⟨JSValue.vStr "old", 9⟩)] } : LocalCache).set "k"
        (JSValue.vStr "new") none 0).thrown ≠ none ↔
      (numTruthy (some 1) = true ∧ (1 : Int) ≤ ((1 : Nat) : Int))) :=
  ⟨by decide,
    set_capacity_error_iff _ "k" (JSValue.vStr "new") none 0 (by decide)⟩

/-- C4: every entry stored by `set` carries `expiredOn = now + effective
TTL`, and a read at or past an entry's `expiredOn` treats it as absent:
`getSync` yields "no value" and a plain (non-waiting) `get` resolves "no
value" without touching the state. -/
theorem ttl_expiry_reads_absent (c : LocalCache) (k : String) (v w : JSValue)
    (ttl : Option Int) (now now2 : Int) (id : Nat) (item : LocalCacheItem)
    (hdis : optTruthy c.options.disabled = false)
    (hadm : c.admission = true)
    (hentry : mapGet c.cache k = some item)
    (hexp : item.expiredOn ≤ now2)
    (hw : w.truthy = false) :
    mapGet (c.set k v ttl now).state.cache k
      = some ⟨v, now + jsOr ttl c.ttl⟩ ∧
    c.getSync k now2 = none ∧
    c.get k w now2 id = (c, .resolved none) := by
  have hlt : ¬ (now2 < item.expiredOn) := by omega
  have hsync : c.getSync k now2 = none := by
    simp [LocalCache.getSync, hdis, hentry, hlt]
  refine ⟨?_, hsync, get_miss_nowait_eq c k w now2 id hsync hw⟩
  rw [set_ok_eq c k v ttl now hdis hadm]
  simp [mapGet_mapSet_self]

/-- C4 witness: an entry that expired at time 5 is invisible at time 10,
and a fresh write at time 0 is stamped `0 + 5000`. -/
theorem ttl_expiry_reads_absent_witness :
    mapGet (({ mkLocalCache {} with
        cache := [("k", ⟨JSValue.vStr "z", 5⟩)] } : LocalCache).set "k"
        (JSValue.vStr "v") none 0).state.cache "k"
      = some ⟨JSValue.vStr "v", 0 + jsOr none 5000⟩ ∧
    ({ mkLocalCache {} with
        cache := [("k", ⟨JSValue.vStr "z", 5⟩)] } : LocalCache).getSync
        "k" 10 = none ∧
    ({ mkLocalCache {} with
        cache := [("k", ⟨JSValue.vStr "z", 5⟩)] } : LocalCache).get "k"
        JSValue.vUndefined 10 0
      = (({ mkLocalCache {} with
          cache := [("k", ⟨JSValue.vStr "z", 5⟩)] } : LocalCache),
        GetOutcome.resolved none) :=
  ttl_expiry_reads_absent _ "k" (JSValue.vStr "v") JSValue.vUndefined none
    0 10 0 ⟨JSValue.vStr "z", 5⟩ (by decide) (by decide) (by decide)
    (by decide) (by decide)

/-- C5 counterexample: with the default configuration, an explicit
`ttl = 0` is falsy, so `set` stamps the entry with the default TTL of
5000ms — the entry written at time 7 expires at `7 + 5000`, not `7 + 0`
as the claim requires. -/
theorem ttl_zero_falls_back_to_default :
    ((mkLocalCache {}).set "k" (JSValue.vStr "v") (some 0) 7).state.cache
      = [("k", ⟨JSValue.vStr "v", 7 + 5000⟩)] ∧
    (7 : Int) + 5000 ≠ 7 + 0 := by
  decide

/-- C5 (amended): the effective TTL is computed with JS `||`, not `??`: a
provided **nonzero** `ttl` argument is used as-is, while an absent *or
zero* `ttl` falls back to the instance default; that default is
`defaultTTLMs` when the option is a nonzero number and 5000ms otherwise. -/
theorem effective_ttl_via_or (c : LocalCache) (k : String) (v : JSValue)
    (ttl : Option Int) (now : Int) (o : LocalCacheOptions)
    (hdis : optTruthy c.options.disabled = false)
    (hadm : c.admission = true) :
    mapGet (c.set k v ttl now).state.cache k
      = some ⟨v, now + jsOr ttl c.ttl⟩ ∧
    (∀ t : Int, t ≠ 0 → jsOr (some t) c.ttl = t) ∧
    jsOr (some 0) c.ttl = c.ttl ∧
    jsOr none c.ttl = c.ttl ∧
    (mkLocalCache o).ttl = jsOr o.defaultTTLMs DEFAULT_TTL_MS ∧
    (mkLocalCache { o with defaultTTLMs := none }).ttl = 5000 ∧
    (mkLocalCache { o with defaultTTLMs := some 0 }).ttl = 5000 := by
  refine ⟨?_, fun t ht => by simp [jsOr, ht], by simp [jsOr], rfl, rfl,
    rfl, rfl⟩
  rw [set_ok_eq c k v ttl now hdis hadm]
  simp [mapGet_mapSet_self]

/-- C5 witness: a nonzero explicit TTL of 250 is used as-is on a fresh
cache. -/
theorem effective_ttl_via_or_witness :
    mapGet ((mkLocalCache {}).set "k" (JSValue.vStr "v") (some 250)
        0).state.cache "k"
      = some ⟨JSValue.vStr "v", 0 + jsOr (some 250) 5000⟩ ∧
    jsOr (some 250) (mkLocalCache {}).ttl = 250 :=
  ⟨(effective_ttl_via_or (mkLocalCache {}) "k" (JSValue.vStr "v")
      (some 250) 0 {} (by decide) (by decide)).1,
    (effective_ttl_via_or (mkLocalCache {}) "k" (JSValue.vStr "v")
      (some 250) 0 {} (by decide) (by decide)).2.1 250 (by decide)⟩

/-- C6: when the cache is constructed with `disabled = true`, `set` is a
pure no-op that never throws and wakes nobody, and `get` — waiting
requested or not — leaves the state untouched and resolves "no value". -/
theorem disabled_is_noop (c : LocalCache) (k : String) (v w : JSValue)
    (ttl : Option Int) (now : Int) (id : Nat)
    (hdis : optTruthy c.options.disabled = true) :
    c.set k v ttl now = ⟨c, [], none⟩ ∧
    c.get k w now id = (c, .resolved none) :=
  ⟨set_disabled_eq c k v ttl now hdis, get_disabled_eq c k w now id hdis⟩

/-- C6 witness: a disabled cache drops a write and answers a waiting read
with "no value". -/
theorem disabled_is_noop_witness :
    (mkLocalCache { disabled := some true }).set "k" (JSValue.vStr "v")
        none 0
      = ⟨mkLocalCache { disabled := some true }, [], none⟩ ∧
    (mkLocalCache { disabled := some true }).get "k" (JSValue.vBool true)
        0 0
      = (mkLocalCache { disabled := some true }, GetOutcome.resolved none) :=
  disabled_is_noop _ "k" (JSValue.vStr "v") (JSValue.vBool true) none 0 0
    (by decide)

/-- C7: one Evictor sweep never modifies the Wait Registry, and it deletes
exactly those entries whose `expiredOn` is at or before the sweep time and
whose key has no wait registration — an entry whose key is registered
(even with an empty waiter list) survives the sweep even if expired. -/
theorem evictor_sweep_exact (c : LocalCache) (now : Int) (k : String)
    (hnd : (c.cache.map Prod.fst).Nodup) :
    (c.clear now).lockCallbacks = c.lockCallbacks ∧
    mapGet (c.clear now).cache k =
      (mapGet c.cache k).bind (fun item =>
        if mapGet c.lockCallbacks k = none ∧ item.expiredOn ≤ now
        then none else some item) := by
  refine ⟨rfl, ?_⟩
  simp only [LocalCache.clear]
  rw [mapGet_filter _ _ _ hnd]
  cases hget : mapGet c.cache k with
  | none => rfl
  | some item2 =>
    by_cases hreg : mapGet c.lockCallbacks k = none <;>
      by_cases hexp : item2.expiredOn ≤ now <;>
        simp [hreg, hexp]

/-- C7 witness: at sweep time 10, the expired entry `"a"` (no waiters) is
deleted while the equally expired entry `"c"`, whose key holds an empty
wait registration, survives, and the registry is untouched. -/
theorem evictor_sweep_exact_witness :
    (({ mkLocalCache {} with
        cache := [("a", ⟨JSValue.vStr "x", 5⟩), ("c", ⟨JSValue.vStr "z", 5⟩)],
        lockCallbacks := [("c", [])] } : LocalCache).clear
        10).lockCallbacks = [("c", [])] ∧
    mapGet (({ mkLocalCache {} with
        cache := [("a", ⟨JSValue.vStr "x", 5⟩), ("c", ⟨JSValue.vStr "z", 5⟩)],
        lockCallbacks := [("c", [])] } : LocalCache).clear 10).cache "c"
      = some ⟨JSValue.vStr "z", 5⟩ ∧
    mapGet (({ mkLocalCache {} with
        cache := [("a", ⟨JSValue.vStr "x", 5⟩), ("c", ⟨JSValue.vStr "z", 5⟩)],
        lockCallbacks := [("c", [])] } : LocalCache).clear 10).cache "a"
      = none := by
  refine ⟨(evictor_sweep_exact _ 10 "c" (by decide)).1, ?_, ?_⟩
  · have h := (evictor_sweep_exact ({ mkLocalCache {} with
        cache := [("a", ⟨JSValue.vStr "x", 5⟩), ("c", ⟨JSValue.vStr "z", 5⟩)],
        lockCallbacks := [("c", [])] } : LocalCache) 10 "c" (by decide)).2
    rw [h]; decide
  · have h := (evictor_sweep_exact ({ mkLocalCache {} with
        cache := [("a", ⟨JSValue.vStr "x", 5⟩), ("c", ⟨JSValue.vStr "z", 5⟩)],
        lockCallbacks := [("c", [])] } : LocalCache) 10 "a" (by decide)).2
    rw [h]; decide

/-- C8: a waiting `get` has no enforced timeout: `get` inspects the wait
argument only through its truthiness (so a numeric wait value behaves
exactly like `true` and is never read as a deadline), a registered waiter
is still registered after any sweep and after any other `get`, and the
only waiter resolutions ever produced come from a `set` draining its own
key's registration. -/
theorem wait_arg_is_not_a_deadline (c : LocalCache) (k : String) (id : Nat)
    (hpend : id ∈ waitersOf c k) :
    (∀ (k2 : String) (w w' : JSValue) (now : Int) (id2 : Nat),
        w.truthy = w'.truthy → c.get k2 w now id2 = c.get k2 w' now id2) ∧
    (∀ now : Int, id ∈ waitersOf (c.clear now) k) ∧
    (∀ (k2 : String) (w : JSValue) (now : Int) (id2 : Nat),
        id ∈ waitersOf (c.get k2 w now id2).1 k) ∧
    (∀ (k2 : String) (v : JSValue) (ttl : Option Int) (now : Int)
        (p : Nat × JSValue),
        p ∈ (c.set k2 v ttl now).woken → p.1 ∈ waitersOf c k2) := by
  refine ⟨?_, fun now => hpend, ?_, ?_⟩
  · intro k2 w w' now id2 h
    unfold LocalCache.get
    rw [h]
  · intro k2 w now id2
    cases hdis : optTruthy c.options.disabled with
    | true => rw [get_disabled_eq c k2 w now id2 hdis]; exact hpend
    | false =>
      cases hsync : c.getSync k2 now with
      | some r => rw [get_hit_eq c k2 w now id2 r hsync]; exact hpend
      | none =>
        cases hw : w.truthy with
        | false =>
          rw [get_miss_nowait_eq c k2 w now id2 hsync hw]; exact hpend
        | true =>
          cases hreg : mapGet c.lockCallbacks k2 with
          | none =>
            rw [get_first_waiter_eq c k2 w now id2 hdis hsync hw hreg]
            by_cases hkk : k2 = k
            · subst hkk
              simp [waitersOf, hreg] at hpend
            · simpa [waitersOf, mapGet_mapSet_ne _ _ _ _ hkk] using hpend
          | some cbs =>
            rw [get_append_waiter_eq c k2 w now id2 cbs hdis hsync hw hreg]
            by_cases hkk : k2 = k
            · subst hkk
              have hc : waitersOf c k2 = cbs := by simp [waitersOf, hreg]
              simp only [waitersOf, mapGet_mapSet_self, Option.getD_some]
              exact List.mem_append_left _ (hc ▸ hpend)
            · simpa [waitersOf, mapGet_mapSet_ne _ _ _ _ hkk] using hpend
  · intro k2 v ttl now p hp
    cases hdis : optTruthy c.options.disabled with
    | true =>
      rw [set_disabled_eq c k2 v ttl now hdis] at hp
      simp at hp
    | false =>
      cases hadm : c.admission with
      | false =>
        rw [set_err_eq c k2 v ttl now hdis hadm] at hp
        simp at hp
      | true =>
        rw [set_ok_eq c k2 v ttl now hdis hadm] at hp
        simp only [List.mem_map] at hp
        obtain ⟨i, hi, rfl⟩ := hp
        exact hi

/-- C8 witness: with waiter `5` registered for `"k"`, a numeric wait
argument behaves like `true`, and waiter `5` is still pending after a
sweep and after another waiting `get`. -/
theorem wait_arg_is_not_a_deadline_witness :
    5 ∈ waitersOf ({ mkLocalCache {} with
        lockCallbacks := [("k", [5])] } : LocalCache) "k" ∧
    ({ mkLocalCache {} with lockCallbacks := [("k", [5])] }
        : LocalCache).get "k" (JSValue.vNum 2000) 0 9
      = ({ mkLocalCache {} with lockCallbacks := [("k", [5])] }
          : LocalCache).get "k" (JSValue.vBool true) 0 9 ∧
    5 ∈ waitersOf (({ mkLocalCache {} with
        lockCallbacks := [("k", [5])] } : LocalCache).clear 99) "k" ∧
    5 ∈ waitersOf (({ mkLocalCache {} with
        lockCallbacks := [("k", [5])] } : LocalCache).get "k"
        (JSValue.vNum 2000) 0 9).1 "k" := by
  refine ⟨by decide, ?_, ?_, ?_⟩
  · exact (wait_arg_is_not_a_deadline
      { mkLocalCache {} with lockCallbacks := [("k", [5])] } "k" 5
      (by decide)).1 "k" (JSValue.vNum 2000) (JSValue.vBool true) 0 9
      (by decide)
  · exact (wait_arg_is_not_a_deadline
      { mkLocalCache {} with lockCallbacks := [("k", [5])] } "k" 5
      (by decide)).2.1 99
  · exact (wait_arg_is_not_a_deadline
      { mkLocalCache {} with lockCallbacks := [("k", [5])] } "k" 5
      (by decide)).2.2.1 "k" (JSValue.vNum 2000) 0 9

/-- C9: a `set` that throws the capacity error is atomic in its failure:
the post-state is exactly the pre-state (no entry written or replaced, the
wait registry untouched) and no waiter is resolved, so pending waiters for
the key remain pending. -/
theorem set_failure_atomic (c : LocalCache) (k : String) (v : JSValue)
    (ttl : Option Int) (now : Int) (msg : String)
    (h : (c.set k v ttl now).thrown = some msg) :
    (c.set k v ttl now).state = c ∧
    (c.set k v ttl now).woken = [] ∧
    mapGet (c.set k v ttl now).state.cache k = mapGet c.cache k ∧
    waitersOf (c.set k v ttl now).state k = waitersOf c k := by
  cases hdis : optTruthy c.options.disabled with
  | true =>
    rw [set_disabled_eq c k v ttl now hdis] at h
    simp at h
  | false =>
    cases hadm : c.admission with
    | true =>
      rw [set_ok_eq c k v ttl now hdis hadm] at h
      simp at h
    | false =>
      rw [set_err_eq c k v ttl now hdis hadm]
      exact ⟨rfl, rfl, rfl, rfl⟩

/-- C9 witness: a rejected overwrite on a full cache with waiter `4`
pending for `"k"` changes nothing and leaves waiter `4` pending. -/
theorem set_failure_atomic_witness :
    ((({ mkLocalCache { maxNumberOfCachedKeys := some 1 } with
        cache := [("a", ⟨JSValue.vStr "x", 9⟩)],
        lockCallbacks := [("k", [4])] } : LocalCache).set "k"
        (JSValue.vStr "v") none 0).thrown
      = some "local-cache max limit reach (1)") ∧
    (({ mkLocalCache { maxNumberOfCachedKeys := some 1 } with
        cache := [("a", ⟨JSValue.vStr "x", 9⟩)],
        lockCallbacks := [("k", [4])] } : LocalCache).set "k"
        (JSValue.vStr "v") none 0).state
      = ({ mkLocalCache { maxNumberOfCachedKeys := some 1 } with
          cache := [("a", ⟨JSValue.vStr "x", 9⟩)],
          lockCallbacks := [("k", [4])] } : LocalCache) ∧
    (({ mkLocalCache { maxNumberOfCachedKeys := some 1 } with
        cache := [("a", ⟨JSValue.vStr "x", 9⟩)],
        lockCallbacks := [("k", [4])] } : LocalCache).set "k"
        (JSValue.vStr "v") none 0).woken = [] ∧
    waitersOf (({ mkLocalCache { maxNumberOfCachedKeys := some 1 } with
        cache := [("a", ⟨JSValue.vStr "x", 9⟩)],
        lockCallbacks := [("k", [4])] } : LocalCache).set "k"
        (JSValue.vStr "v") none 0).state "k" = [4] := by
  have h := set_failure_atomic
    ({ mkLocalCache { maxNumberOfCachedKeys := some 1 } with
      cache := [("a", ⟨JSValue.vStr "x", 9⟩)],
      lockCallbacks := [("k", [4])] } : LocalCache) "k"
    (JSValue.vStr "v") none 0 "local-cache max limit reach (1)" (by decide)
  refine ⟨by decide, h.1, h.2.1, ?_⟩
  rw [h.2.2.2]; decide

/-- C10: operations on one key never disturb another key's state: `set k`
leaves the entry and the wait registration of every other key `k2`
unchanged; `get k` never modifies the entry store at all and leaves every
other key's wait registration unchanged. -/
theorem frame_other_keys (c : LocalCache) (k k2 : String) (v w : JSValue)
    (ttl : Option Int) (now : Int) (id : Nat) (hne : k ≠ k2) :
    mapGet (c.set k v ttl now).state.cache k2 = mapGet c.cache k2 ∧
    mapGet (c.set k v ttl now).state.lockCallbacks k2
      = mapGet c.lockCallbacks k2 ∧
    (c.get k w now id).1.cache = c.cache ∧
    mapGet (c.get k w now id).1.lockCallbacks k2
      = mapGet c.lockCallbacks k2 := by
  have hget : (c.get k w now id).1.cache = c.cache ∧
      mapGet (c.get k w now id).1.lockCallbacks k2
        = mapGet c.lockCallbacks k2 := by
    cases hdis : optTruthy c.options.disabled with
    | true => rw [get_disabled_eq c k w now id hdis]; exact ⟨rfl, rfl⟩
    | false =>
      cases hsync : c.getSync k now with
      | some r => rw [get_hit_eq c k w now id r hsync]; exact ⟨rfl, rfl⟩
      | none =>
        cases hw : w.truthy with
        | false =>
          rw [get_miss_nowait_eq c k w now id hsync hw]; exact ⟨rfl, rfl⟩
        | true =>
          cases hreg : mapGet c.lockCallbacks k with
          | none =>
            rw [get_first_waiter_eq c k w now id hdis hsync hw hreg]
            exact ⟨rfl, mapGet_mapSet_ne _ _ _ _ hne⟩
          | some cbs =>
            rw [get_append_waiter_eq c k w now id cbs hdis hsync hw hreg]
            exact ⟨rfl, mapGet_mapSet_ne _ _ _ _ hne⟩
  refine ⟨?_, ?_, hget.1, hget.2⟩ <;>
  · cases hdis : optTruthy c.options.disabled with
    | true => rw [set_disabled_eq c k v ttl now hdis]
    | false =>
      cases hadm : c.admission with
      | false => rw [set_err_eq c k v ttl now hdis hadm]
      | true =>
        rw [set_ok_eq c k v ttl now hdis hadm]
        first
        | exact mapGet_mapSet_ne _ _ _ _ hne
        | cases hreg : mapGet c.lockCallbacks k with
          | none => rfl
          | some cbs => exact mapGet_mapDelete_ne _ _ _ hne

/-- C10 witness: writing `"k"` and reading `"k"` (with waiting) leave the
entry and the registration of `"j"` unchanged. -/
theorem frame_other_keys_witness :
    mapGet (({ mkLocalCache {} with
        cache := [("j", ⟨JSValue.vStr "y", 8⟩)],
        lockCallbacks := [("j", [6]), ("k", [4])] } : LocalCache).set "k"
        (JSValue.vStr "v") none 0).state.cache "j"
      = some ⟨JSValue.vStr "y", 8⟩ ∧
    mapGet (({ mkLocalCache {} with
        cache := [("j", ⟨JSValue.vStr "y", 8⟩)],
        lockCallbacks := [("j", [6]), ("k", [4])] } : LocalCache).set "k"
        (JSValue.vStr "v") none 0).state.lockCallbacks "j" = some [6] ∧
    (({ mkLocalCache {} with
        cache := [("j", ⟨JSValue.vStr "y", 8⟩)],
        lockCallbacks := [("j", [6]), ("k", [4])] } : LocalCache).get "k"
        (JSValue.vBool true) 0 9).1.cache
      = [("j", ⟨JSValue.vStr "y", 8⟩)] ∧
    mapGet (({ mkLocalCache {} with
        cache := [("j", ⟨JSValue.vStr "y", 8⟩)],
        lockCallbacks := [("j", [6]), ("k", [4])] } : LocalCache).get "k"
        (JSValue.vBool true) 0 9).1.lockCallbacks "j" = some [6] := by
  have h := frame_other_keys
    ({ mkLocalCache {} with
      cache := [("j", ⟨JSValue.vStr "y", 8⟩)],
      lockCallbacks := [("j", [6]), ("k", [4])] } : LocalCache) "k" "j"
    (JSValue.vStr "v") (JSValue.vBool true) none 0 9 (by decide)
  refine ⟨?_, ?_, ?_, ?_⟩
  · rw [h.1]; decide
  · rw [h.2.1]; decide
  · exact h.2.2.1
  · rw [h.2.2.2]; decide
